import Mathlib

/-!
Verification development for a question-record ingestion and retrieval service
(`app/services/embedding_service.py` and `app/services/vector_store_service.py`).

The embedding models the Python source directly:
* JSON values occurring in question records are modelled by `JVal`
  (strings and integers suffice for every field the code inspects);
  Python truthiness is `JVal.truthy` and `str(...)` is `JVal.pyStr`.
* A record (Python dict) is an association list with first-match lookup.
* The embedding provider is an opaque parameter `f : String → List ℚ`
  (`embed_documents` / `embed_query` applied pointwise); vectors are `List ℚ`.
* The Qdrant store is an association list from point id to payload; `upsert`
  overwrites by point id, `scroll` is a sequence of page outcomes.
* Python `str.strip` is `pyStrip`, whitespace trimming on the character list.
-/

/-- A JSON value as far as the service inspects one: a string or an integer. -/
inductive JVal where
  | str : String → JVal
  | num : Int → JVal
deriving DecidableEq, Repr

/-- Python truthiness of a value: non-empty string, non-zero number. -/
def JVal.truthy : JVal → Bool
  | JVal.str s => s != ""
  | JVal.num n => n != 0

/-- Python `str(...)` of a value. -/
def JVal.pyStr : JVal → String
  | JVal.str s => s
  | JVal.num n => toString n

/-- A question record: a JSON object, i.e. a key/value association list. -/
abbrev Record := List (String × JVal)

/-- Python `obj.get(k)`: the value at key `k`, if present (first match). -/
def getKey? (obj : Record) (k : String) : Option JVal :=
  Option.map Prod.snd (obj.find? (fun e => e.1 == k))

/-- Python `obj.get(k, d)`: the value at key `k`, or the default `d`. -/
def getKeyD (obj : Record) (k : String) (d : JVal) : JVal :=
  Option.getD (getKey? obj k) d

/-- Whitespace as recognised by Python `str.strip` on the fields in play. -/
def pySpace (c : Char) : Bool :=
  c == ' ' || c == '\t' || c == '\n' || c == '\r'

/-- Strip leading and trailing whitespace from a character list. -/
def stripChars (l : List Char) : List Char :=
  (((l.dropWhile pySpace).reverse.dropWhile pySpace)).reverse

/-- Python `s.strip()`. -/
def pyStrip (s : String) : String :=
  String.mk (stripChars s.data)

/-- The shared field-fallback chain of `prepare_text_for_embedding` and
`prepare_text_with_visual_context`: `obj.get("QuestionText", "")`, and if that
is falsy, `obj.get("question", obj.get("Question", ""))`. -/
def extractQT (obj : Record) : JVal :=
  let qt := getKeyD obj "QuestionText" (JVal.str "")
  if qt.truthy then qt
  else getKeyD obj "question" (getKeyD obj "Question" (JVal.str ""))

/-- `EmbeddingService.prepare_text_for_embedding`: the primary text selected
for the record, or `""` when the selected value is falsy. -/
def prepare_text_for_embedding (obj : Record) : String :=
  let q := extractQT obj
  if q.truthy then q.pyStr else ""

/-- `EmbeddingService.prepare_text_with_visual_context`: the combined
`f"{question_text} {visual_context}".strip()` when `visual_context` is truthy
and strips to a non-empty string, else `""`. -/
def prepare_text_with_visual_context (obj : Record) : String :=
  let q := extractQT obj
  let vc := getKeyD obj "visual_context" (JVal.str "")
  if vc.truthy && (pyStrip vc.pyStr != "") then pyStrip (q.pyStr ++ " " ++ vc.pyStr)
  else ""

/-- The payload stored with an indexed point (`PointStruct(payload=...)`):
primary text, the optional `visual_context` key (present only on the
context variant), the metadata mapping, the provenance index into the
filtered input, and the embedding-kind tag. -/
structure Payload where
  questionText : JVal
  visual_context : Option JVal
  metadata : Record
  index : Nat
  embedding_type : String
deriving DecidableEq, Repr

/-- One Qdrant point as constructed by the pipeline. -/
structure PointStruct where
  id : Nat
  vector : List ℚ
  payload : Payload
deriving DecidableEq, Repr

/-- The visible state of the collection: point id to payload (system of record). -/
abbrev Store := List (Nat × Payload)

/-- Lookup of the payload currently stored at a point id. -/
def lookupStore (st : Store) (i : Nat) : Option Payload :=
  Option.map Prod.snd (st.find? (fun e => e.1 == i))

/-- Qdrant `upsert` of a single point: overwrite the entry with the same id,
or append a new entry. -/
def upsertOne (st : Store) (p : PointStruct) : Store :=
  if st.any (fun e => e.1 == p.id) then
    st.map (fun e => if e.1 == p.id then (p.id, p.payload) else e)
  else st ++ [(p.id, p.payload)]

/-- One `client.upsert(collection_name, points)` call. -/
def upsertAll (st : Store) (ps : List PointStruct) : Store :=
  ps.foldl upsertOne st

/-- The external identifier a payload contributes to the existing-key scan:
`payload.get("metadata", {}).get("_id")`, kept when truthy, as a string. -/
def metaId (pl : Payload) : Option String :=
  match getKey? pl.metadata "_id" with
  | some v => if v.truthy then some v.pyStr else none
  | none => none

/-- All external identifiers recorded in the store, as collected by a
fully successful scroll scan. -/
def scanStore (st : Store) : List String :=
  st.filterMap (fun e => metaId e.2)

/-- Outcome of one `client.scroll` call: a page of payloads together with
whether a `next_offset` was returned, or a raised exception. -/
inductive ScrollPage where
  | ok : List Payload → Bool → ScrollPage
  | err : ScrollPage
deriving DecidableEq, Repr

/-- `VectorStoreService._get_existing_ids`: accumulate truthy `metadata._id`
values page by page; stop on an empty page or a missing `next_offset`; on an
exception return whatever has been accumulated so far (`except: pass`). -/
def getExistingIds : List ScrollPage → List String → List String
  | [], acc => acc
  | ScrollPage.err :: _, acc => acc
  | ScrollPage.ok pts hasNext :: rest, acc =>
    if pts = [] then acc
    else
      let acc2 := acc ++ pts.filterMap metaId
      if hasNext then getExistingIds rest acc2 else acc2

/-- The filtering pass of `load_json_and_store`: drop a record whose truthy
`_id` is already among the existing identifiers, then keep it only if its
prepared text is non-empty. -/
def filterNew (existing : List String) (data : List Record) : List Record :=
  data.filter (fun obj =>
    (match getKey? obj "_id" with
     | some v => !(v.truthy && decide (v.pyStr ∈ existing))
     | none => true)
    && (prepare_text_for_embedding obj != ""))

/-- Fuel-indexed batching; `fuel` bounds the number of batches taken. -/
def chunksAux (b : Nat) : Nat → List Record → List (List Record)
  | _, [] => []
  | 0, _ :: _ => []
  | fuel + 1, x :: xs => (x :: xs).take b :: chunksAux b fuel ((x :: xs).drop b)

/-- The batch slices `valid_objects[batch_start:batch_end]` of
`range(0, total_objects, batch_size)`; total for `1 ≤ b`. -/
def chunks (b : Nat) (l : List Record) : List (List Record) :=
  chunksAux b l.length l

/-- Payload of a primary-text-only point for `obj` at provenance index `i`:
all fields except `QuestionText` become metadata. -/
def primaryPayload (obj : Record) (i : Nat) : Payload :=
  { questionText := getKeyD obj "QuestionText" (JVal.str "")
    visual_context := none
    metadata := obj.filter (fun e => e.1 != "QuestionText")
    index := i
    embedding_type := "question_text_only" }

/-- Payload of a primary-plus-context point for `obj` at provenance index `i`. -/
def visualPayload (obj : Record) (i : Nat) : Payload :=
  { questionText := getKeyD obj "QuestionText" (JVal.str "")
    visual_context := some (getKeyD obj "visual_context" (JVal.str ""))
    metadata := obj.filter (fun e => e.1 != "QuestionText")
    index := i
    embedding_type := "question_text_with_visual_context" }

/-- The primary-only points of a batch, one per record, ids from `c`,
provenance indexes from `s` (`batch_start + idx`). -/
def primaryPoints (f : String → List ℚ) (s c : Nat) : List Record → List PointStruct
  | [] => []
  | o :: os =>
    { id := c, vector := f (prepare_text_for_embedding o), payload := primaryPayload o s }
      :: primaryPoints f (s + 1) (c + 1) os

/-- The `visual_indices` bookkeeping: records of the batch whose combined
text is non-empty, paired with their global provenance index. -/
def visEntries (s : Nat) : List Record → List (Nat × Record)
  | [] => []
  | o :: os =>
    if prepare_text_with_visual_context o = "" then visEntries (s + 1) os
    else (s, o) :: visEntries (s + 1) os

/-- The primary-plus-context points, one per `visEntries` entry, ids from `c`. -/
def visualPoints (f : String → List ℚ) (c : Nat) : List (Nat × Record) → List PointStruct
  | [] => []
  | e :: rest =>
    { id := c, vector := f (prepare_text_with_visual_context e.2),
      payload := visualPayload e.2 e.1 }
      :: visualPoints f (c + 1) rest

/-- All points constructed for one batch, in construction order: the
primary-only points, then the primary-plus-context points. -/
def batchPoints (f : String → List ℚ) (s c : Nat) (batch : List Record) : List PointStruct :=
  primaryPoints f s c batch ++ visualPoints f (c + batch.length) (visEntries s batch)

/-- Result of the batch loop: the points constructed (in construction order),
the store after the per-batch upserts, the accumulated stored-record count,
and the number of embedding-provider calls. -/
structure LoopOut where
  points : List PointStruct
  store : Store
  stored : Nat
  embedCalls : Nat
deriving Repr

/-- The batch loop of `load_json_and_store`: per batch, one batched embedding
call for the primary texts, one more if any record has combined text, one
upsert when the batch yields points, and `total_stored += len(batch_objects)`.
`s` is `batch_start`, `c` the run-scoped point-id counter. -/
def ingestLoop (f : String → List ℚ) :
    List (List Record) → Nat → Nat → Store → Nat → Nat → LoopOut
  | [], _, _, st, stored, ec => ⟨[], st, stored, ec⟩
  | batch :: rest, s, c, st, stored, ec =>
    let pts := batchPoints f s c batch
    let ec2 := ec + 1 + (if visEntries s batch = [] then 0 else 1)
    let st2 := if pts = [] then st else upsertAll st pts
    let out := ingestLoop f rest (s + batch.length) (c + pts.length) st2
      (stored + batch.length) ec2
    ⟨pts ++ out.points, out.store, out.stored, out.embedCalls⟩

/-- Result of one ingest call. -/
structure IngestOut where
  count : Nat
  store : Store
  embedCalls : Nat
  points : List PointStruct
deriving Repr

/-- `VectorStoreService.load_json_and_store` on already-parsed records:
ensure the collection (one probing embedding call when absent), build the
existing-key set, filter, and run the batch loop; an empty filtered list
returns 0 before any embedding or upsert. -/
def load_json_and_store (f : String → List ℚ) (collExists : Bool) (st : Store)
    (data : List Record) (batchSize : Nat) : IngestOut :=
  let probe := if collExists then 0 else 1
  let existing := scanStore st
  let valid := filterNew existing data
  if valid = [] then ⟨0, st, probe, []⟩
  else
    let out := ingestLoop f (chunks batchSize valid) 0 0 st 0 probe
    ⟨out.stored, out.store, out.embedCalls, out.points⟩

/-- A match returned by `client.query_points`. -/
structure ScoredPoint where
  id : Nat
  score : ℚ
  payload : Payload
deriving DecidableEq, Repr

/-- The search-result entry kept per external identifier. -/
structure SearchResult where
  id : String
  question : Record
  score : ℚ
  point_id : String
deriving DecidableEq, Repr

/-- The identifier a match is deduplicated under: truthy `metadata._id`
as a string, else the point id (`str(point.id)`). -/
def resultId (m : ScoredPoint) : String :=
  match getKey? m.payload.metadata "_id" with
  | some v => if v.truthy then v.pyStr else toString m.id
  | none => toString m.id

/-- The reconstructed question object `{"QuestionText": ..., **metadata}`
(first-match lookup, so metadata entries shadow the stored primary text). -/
def questionObj (pl : Payload) : Record :=
  pl.metadata ++ [("QuestionText", pl.questionText)]

/-- The search-result entry built from one match. -/
def toResult (m : ScoredPoint) : SearchResult :=
  { id := resultId m, question := questionObj m.payload, score := m.score,
    point_id := toString m.id }

/-- One step of dedup bookkeeping: insert a first-seen identifier at the end,
replace the stored entry when the new score is strictly higher, discard
otherwise (dict insertion order is preserved by replacement). -/
def updateBest (acc : List SearchResult) (r : SearchResult) : List SearchResult :=
  if acc.any (fun x => x.id == r.id) then
    acc.map (fun x => if x.id == r.id && decide (x.score < r.score) then r else x)
  else acc ++ [r]

/-- The `results_by_id` mapping of `search_similar`, as its insertion-ordered
value list. -/
def dedupResults (ms : List ScoredPoint) : List SearchResult :=
  ms.foldl (fun acc m => updateBest acc (toResult m)) []

/-- Descending-score comparison used by `results.sort(key=..., reverse=True)`. -/
def resGE (a b : SearchResult) : Prop := b.score ≤ a.score

instance : DecidableRel resGE := fun a b => inferInstanceAs (Decidable (b.score ≤ a.score))

instance : IsTotal SearchResult resGE := ⟨fun a b => le_total b.score a.score⟩

instance : IsTrans SearchResult resGE := ⟨fun _ _ _ h1 h2 => le_trans h2 h1⟩

/-- `VectorStoreService.search_similar` downstream of the store query:
dedup by identifier keeping the best score, stable sort descending by
score, truncate to `limit`. The list `ms` is what `query_points` returned
(at most `limit * 3` matches at or above the threshold). -/
def search_similar (ms : List ScoredPoint) (limit : Nat) : List SearchResult :=
  (List.insertionSort resGE (dedupResults ms)).take limit

/-- The identifiers contributed by one successful scroll page. -/
def pageIds : ScrollPage → List String
  | ScrollPage.ok pts _ => pts.filterMap metaId
  | ScrollPage.err => []

/-- The batch-size-independent content of a constructed point: its embedding
vector and payload (everything but the run-scoped point id). -/
def pointData (p : PointStruct) : List ℚ × Payload :=
  (p.vector, p.payload)

/-- The vector/payload data of the primary-only points of a record list,
provenance indexes from `s`. -/
def primDatas (f : String → List ℚ) : Nat → List Record → List (List ℚ × Payload)
  | _, [] => []
  | s, o :: os =>
    (f (prepare_text_for_embedding o), primaryPayload o s) :: primDatas f (s + 1) os

/-- The vector/payload data of the primary-plus-context points of a list of
`visEntries` entries. -/
def visDatas (f : String → List ℚ) : List (Nat × Record) → List (List ℚ × Payload)
  | [] => []
  | e :: rest =>
    (f (prepare_text_with_visual_context e.2), visualPayload e.2 e.1) :: visDatas f rest

/-! ### Record lookup and filtering helpers -/

theorem mem_filterNew {existing : List String} {data : List Record} {obj : Record}
    (h : obj ∈ filterNew existing data) :
    obj ∈ data ∧ prepare_text_for_embedding obj ≠ "" := by
  rw [filterNew, List.mem_filter] at h
  refine ⟨h.1, ?_⟩
  have h2 := h.2
  cases hb : Bool.and (match getKey? obj "_id" with
      | some v => !(v.truthy && decide (v.pyStr ∈ existing))
      | none => true) (prepare_text_for_embedding obj != "") with
  | false => rw [hb] at h2; exact absurd h2 (by simp)
  | true =>
    have := (Bool.and_eq_true _ _).mp hb
    simpa using this.2

theorem filterNew_nil_of_dup {existing : List String} {data : List Record}
    (h : ∀ obj ∈ data, ∃ v, getKey? obj "_id" = some v ∧ v.truthy = true ∧
      v.pyStr ∈ existing) :
    filterNew existing data = [] := by
  rw [filterNew, List.filter_eq_nil_iff]
  intro obj hobj
  obtain ⟨v, hv, htr, hmem⟩ := h obj hobj
  simp [hv, htr, hmem]

/-! ### C7: primary-text extraction fallback chain -/

/-- C7 counterexample: the claim says an empty alternate (`question` present
but empty) falls through to the next alternate (`Question`), so this record
would extract `"hi"` and be usable; the code instead stops at the present
`question` key and yields `""` (unusable). -/
theorem C7_counterexample :
    getKey? [("question", JVal.str ""), ("Question", JVal.str "hi")] "QuestionText" = none ∧
    getKey? [("question", JVal.str ""), ("Question", JVal.str "hi")] "question"
      = some (JVal.str "") ∧
    getKey? [("question", JVal.str ""), ("Question", JVal.str "hi")] "Question"
      = some (JVal.str "hi") ∧
    prepare_text_for_embedding [("question", JVal.str ""), ("Question", JVal.str "hi")] = "" := by
  exact ⟨by decide, by decide, by decide, by decide⟩

/-- C7 amended: extraction uses `QuestionText`; when that is absent or falsy it
falls back to the value of `question` whenever that key is present (a present
but empty `question` yields no usable text instead of falling through), and
only when `question` is absent to the value of `Question`; a falsy selected
value leaves the record without usable text, and such records are excluded
from ingestion by the filter. -/
theorem C7_amended_fallback_chain (obj : Record) :
    (prepare_text_for_embedding obj =
      if (getKeyD obj "QuestionText" (JVal.str "")).truthy then
        (getKeyD obj "QuestionText" (JVal.str "")).pyStr
      else
        match getKey? obj "question" with
        | some v => if v.truthy then v.pyStr else ""
        | none =>
          match getKey? obj "Question" with
          | some w => if w.truthy then w.pyStr else ""
          | none => "") ∧
    (∀ existing data, obj ∈ filterNew existing data →
      prepare_text_for_embedding obj ≠ "") := by
  constructor
  · simp only [prepare_text_for_embedding, extractQT]
    by_cases hq : (getKeyD obj "QuestionText" (JVal.str "")).truthy
    · simp [hq]
    · simp only [hq, if_false, Bool.false_eq_true]
      cases h1 : getKey? obj "question" with
      | some v => simp [getKeyD, h1]
      | none =>
        cases h2 : getKey? obj "Question" with
        | some w => simp [getKeyD, h1, h2]
        | none => simp [getKeyD, h1, h2, JVal.truthy]
  · intro existing data hmem
    exact (mem_filterNew hmem).2

/-- C7 witness: a record whose `QuestionText` is present and non-empty is kept
by the filter and extracts non-empty text. -/
theorem C7_witness :
    prepare_text_for_embedding [("QuestionText", JVal.str "hello")] ≠ "" := by
  exact (C7_amended_fallback_chain [("QuestionText", JVal.str "hello")]).2 []
    [[("QuestionText", JVal.str "hello")]] (by decide)

/-! ### C1: duplicate identifiers within a single input -/

/-- C1 counterexample: on an empty collection the scenario input with two
records sharing identifier `"a"` does not return 1 — the existing-key set is
computed once from the store and never updated during filtering, so the
second record is not skipped. -/
theorem C1_counterexample :
    (load_json_and_store (fun _ => []) true []
      [[("_id", JVal.str "a"), ("QuestionText", JVal.str "What is mitosis?")],
       [("_id", JVal.str "a"), ("QuestionText", JVal.str "duplicate")]] 10).count ≠ 1 := by
  decide

/-- C1 amended: the scenario call returns 2 — both records are stored (two
primary-only points, provenance indexes 0 and 1). Duplicates are only
detected against identifiers already present in the store before the call,
not within the same input. -/
theorem C1_amended_duplicate_in_input :
    (load_json_and_store (fun _ => []) true []
      [[("_id", JVal.str "a"), ("QuestionText", JVal.str "What is mitosis?")],
       [("_id", JVal.str "a"), ("QuestionText", JVal.str "duplicate")]] 10).count = 2 ∧
    (load_json_and_store (fun _ => []) true []
      [[("_id", JVal.str "a"), ("QuestionText", JVal.str "What is mitosis?")],
       [("_id", JVal.str "a"), ("QuestionText", JVal.str "duplicate")]] 10).points.map
      (fun p => (p.id, p.payload.index, p.payload.embedding_type))
      = [(0, 0, "question_text_only"), (1, 1, "question_text_only")] := by
  exact ⟨by decide, by decide⟩

/-! ### C9: existing-key scan under scroll failure -/

/-- C9 counterexample: when the first scroll page succeeds (one point with
identifier `"x"`) and the second scroll call raises, the scan returns the
partially accumulated `["x"]`, not the empty set the claim requires. -/
theorem C9_counterexample :
    getExistingIds [ScrollPage.ok
        [{ questionText := JVal.str "t", visual_context := none,
           metadata := [("_id", JVal.str "x")], index := 0,
           embedding_type := "question_text_only" }] true,
      ScrollPage.err] [] = ["x"] ∧
    getExistingIds [ScrollPage.ok
        [{ questionText := JVal.str "t", visual_context := none,
           metadata := [("_id", JVal.str "x")], index := 0,
           embedding_type := "question_text_only" }] true,
      ScrollPage.err] [] ≠ [] := by
  exact ⟨by decide, by decide⟩

/-- C9 amended: a scroll failure never raises to the caller; the scan returns
exactly the identifiers accumulated from the pages before the failure — in
particular the empty set when the very first scroll fails (absent
collection), and a possibly non-empty partial set on a mid-scan failure. -/
theorem C9_amended_partial_scan (pre post : List ScrollPage) (acc : List String)
    (h : ∀ pg ∈ pre, ∃ pts, pg = ScrollPage.ok pts true ∧ pts ≠ []) :
    getExistingIds (pre ++ ScrollPage.err :: post) acc
      = acc ++ (pre.map pageIds).flatten := by
  induction pre generalizing acc with
  | nil => simp [getExistingIds]
  | cons pg rest ih =>
    obtain ⟨pts, rfl, hne⟩ := h pg (by simp)
    have hrest : ∀ q ∈ rest, ∃ l, q = ScrollPage.ok l true ∧ l ≠ [] :=
      fun q hq => h q (by simp [hq])
    simp only [List.cons_append]
    rw [show getExistingIds (ScrollPage.ok pts true :: (rest ++ ScrollPage.err :: post)) acc
        = getExistingIds (rest ++ ScrollPage.err :: post) (acc ++ pts.filterMap metaId) by
      simp [getExistingIds, hne]]
    rw [ih _ hrest]
    simp [pageIds, List.append_assoc]

/-- C9 witness: a failing first scroll yields the empty set. -/
theorem C9_witness : getExistingIds [ScrollPage.err] [] = [] := by
  have h := C9_amended_partial_scan [] [ ] [] (by simp)
  simpa using h

/-! ### C6: no embedding calls on empty or entirely-duplicate input -/

/-- C6 counterexample: an ingest call with empty input against an absent
collection makes one embedding-provider call — the dimensionality probe of
`_ensure_collection_exists` — contradicting "no call to the embedding
provider is made". -/
theorem C6_counterexample :
    (load_json_and_store (fun _ => []) false [] [] 10).count = 0 ∧
    (load_json_and_store (fun _ => []) false [] [] 10).embedCalls ≠ 0 := by
  exact ⟨by decide, by decide⟩

/-- C6 amended: an empty or entirely-duplicate input returns 0, and the only
possible embedding-provider contact is the single dimensionality probe made
when the collection does not yet exist; when the collection exists no
embedding call is made at all. -/
theorem C6_amended_no_embedding_calls (f : String → List ℚ) (ce : Bool) (st : Store)
    (data : List Record) (b : Nat)
    (h : data = [] ∨ ∀ obj ∈ data, ∃ v, getKey? obj "_id" = some v ∧
      v.truthy = true ∧ v.pyStr ∈ scanStore st) :
    (load_json_and_store f ce st data b).count = 0 ∧
    (load_json_and_store f ce st data b).embedCalls = (if ce then 0 else 1) := by
  have hval : filterNew (scanStore st) data = [] := by
    rcases h with rfl | hdup
    · rfl
    · exact filterNew_nil_of_dup hdup
  simp [load_json_and_store, hval]

/-- C6 witness: empty input against an existing collection returns 0 with no
embedding call. -/
theorem C6_witness :
    (load_json_and_store (fun _ => []) true [] [] 10).count = 0 ∧
    (load_json_and_store (fun _ => []) true [] [] 10).embedCalls = 0 := by
  have h := C6_amended_no_embedding_calls (fun _ => []) true [] [] 10 (Or.inl rfl)
  exact ⟨h.1, by simpa using h.2⟩

/-! ### Batching and point-id bookkeeping -/

theorem chunksAux_flatten (b : Nat) (hb : 1 ≤ b) :
    ∀ fuel l, l.length ≤ fuel → (chunksAux b fuel l).flatten = l := by
  intro fuel
  induction fuel with
  | zero =>
    intro l hl
    cases l with
    | nil => rfl
    | cons x xs => simp at hl
  | succ n ih =>
    intro l hl
    cases l with
    | nil => rfl
    | cons x xs =>
      simp only [chunksAux, List.flatten_cons]
      have hd : ((x :: xs).drop b).length ≤ n := by
        rw [List.length_drop]
        simp only [List.length_cons]
        simp only [List.length_cons] at hl
        omega
      rw [ih ((x :: xs).drop b) hd]
      exact List.take_append_drop b (x :: xs)

theorem chunks_flatten (b : Nat) (l : List Record) (hb : 1 ≤ b) :
    (chunks b l).flatten = l :=
  chunksAux_flatten b hb l.length l le_rfl

theorem range'_add_append (s m n : Nat) :
    List.range' s m ++ List.range' (s + m) n = List.range' s (m + n) := by
  have h := List.range'_append s m n 1
  simp only [Nat.one_mul, Nat.mul_one] at h
  rw [Nat.add_comm n m] at h
  simpa using h

theorem primaryPoints_map_id (f : String → List ℚ) :
    ∀ (l : List Record) (s c : Nat),
      (primaryPoints f s c l).map PointStruct.id = List.range' c l.length := by
  intro l
  induction l with
  | nil => intro s c; rfl
  | cons o os ih =>
    intro s c
    simp only [primaryPoints, List.map_cons, List.length_cons, List.range'_succ]
    rw [ih (s + 1) (c + 1)]

theorem visualPoints_map_id (f : String → List ℚ) :
    ∀ (es : List (Nat × Record)) (c : Nat),
      (visualPoints f c es).map PointStruct.id = List.range' c es.length := by
  intro es
  induction es with
  | nil => intro c; rfl
  | cons e rest ih =>
    intro c
    simp only [visualPoints, List.map_cons, List.length_cons, List.range'_succ]
    rw [ih (c + 1)]

theorem primaryPoints_length (f : String → List ℚ) (l : List Record) (s c : Nat) :
    (primaryPoints f s c l).length = l.length := by
  have h := congrArg List.length (primaryPoints_map_id f l s c)
  simpa using h

theorem visualPoints_length (f : String → List ℚ) (es : List (Nat × Record)) (c : Nat) :
    (visualPoints f c es).length = es.length := by
  have h := congrArg List.length (visualPoints_map_id f es c)
  simpa using h

theorem batchPoints_map_id (f : String → List ℚ) (s c : Nat) (batch : List Record) :
    (batchPoints f s c batch).map PointStruct.id
      = List.range' c (batchPoints f s c batch).length := by
  simp only [batchPoints, List.map_append, List.length_append]
  rw [primaryPoints_map_id, visualPoints_map_id, primaryPoints_length, visualPoints_length]
  exact range'_add_append c batch.length (visEntries s batch).length

theorem ingestLoop_points_map_id (f : String → List ℚ) :
    ∀ (cs : List (List Record)) (s c : Nat) (st : Store) (stored ec : Nat),
      (ingestLoop f cs s c st stored ec).points.map PointStruct.id
        = List.range' c (ingestLoop f cs s c st stored ec).points.length := by
  intro cs
  induction cs with
  | nil => intro s c st stored ec; rfl
  | cons batch rest ih =>
    intro s c st stored ec
    simp only [ingestLoop, List.map_append, List.length_append]
    rw [batchPoints_map_id, ih]
    exact range'_add_append c _ _

theorem ingest_points_map_id (f : String → List ℚ) (ce : Bool) (st : Store)
    (data : List Record) (b : Nat) :
    (load_json_and_store f ce st data b).points.map PointStruct.id
      = List.range (load_json_and_store f ce st data b).points.length := by
  rw [List.range_eq_range']
  unfold load_json_and_store
  by_cases hval : filterNew (scanStore st) data = []
  · simp [hval]
  · simp only [hval, ite_false]
    exact ingestLoop_points_map_id f (chunks b (filterNew (scanStore st) data)) 0 0 st 0 _

/-! ### Upsert semantics: overwrite by point id -/

theorem find?_map_replace_self (p : PointStruct) :
    ∀ st : Store, st.any (fun e => e.1 == p.id) = true →
      (st.map (fun e => if e.1 == p.id then (p.id, p.payload) else e)).find?
        (fun e => e.1 == p.id) = some (p.id, p.payload) := by
  intro st
  induction st with
  | nil => intro h; simp at h
  | cons e tl ih =>
    intro h
    by_cases he : (e.1 == p.id) = true
    · rw [List.map_cons, if_pos he]
      exact List.find?_cons_of_pos _ (by simp)
    · have htl : tl.any (fun x => x.1 == p.id) = true := by
        rcases List.any_eq_true.mp h with ⟨x, hx, hpx⟩
        rcases List.mem_cons.mp hx with rfl | hxtl
        · exact absurd hpx he
        · exact List.any_eq_true.mpr ⟨x, hxtl, hpx⟩
      rw [List.map_cons, if_neg he,
        @List.find?_cons_of_neg _ (fun x => x.1 == p.id) e _ he]
      exact ih htl

theorem find?_map_replace_other (p : PointStruct) (i : Nat) (hin : i ≠ p.id) :
    ∀ st : Store,
      (st.map (fun e => if e.1 == p.id then (p.id, p.payload) else e)).find?
        (fun e => e.1 == i) = st.find? (fun e => e.1 == i) := by
  intro st
  induction st with
  | nil => rfl
  | cons e tl ih =>
    by_cases he : (e.1 == p.id) = true
    · have hee : e.1 = p.id := by simpa using he
      have h1 : ¬ ((p.id, p.payload).1 == i) = true := by simpa using Ne.symm hin
      have h2 : ¬ (e.1 == i) = true := by simp [hee]; exact Ne.symm hin
      rw [List.map_cons, if_pos he,
        @List.find?_cons_of_neg _ (fun x => x.1 == i) (p.id, p.payload) _ h1,
        @List.find?_cons_of_neg _ (fun x => x.1 == i) e _ h2]
      exact ih
    · rw [List.map_cons, if_neg he]
      by_cases hei : (e.1 == i) = true
      · rw [@List.find?_cons_of_pos _ (fun x => x.1 == i) e
          (tl.map (fun x => if x.1 == p.id then (p.id, p.payload) else x)) hei,
          @List.find?_cons_of_pos _ (fun x => x.1 == i) e tl hei]
      · rw [@List.find?_cons_of_neg _ (fun x => x.1 == i) e
          (tl.map (fun x => if x.1 == p.id then (p.id, p.payload) else x)) hei,
          @List.find?_cons_of_neg _ (fun x => x.1 == i) e tl hei]
        exact ih

theorem lookup_upsertOne (st : Store) (p : PointStruct) (i : Nat) :
    lookupStore (upsertOne st p) i
      = if i = p.id then some p.payload else lookupStore st i := by
  unfold upsertOne lookupStore
  by_cases hany : st.any (fun e => e.1 == p.id) = true
  · rw [if_pos hany]
    by_cases hi : i = p.id
    · subst hi
      rw [find?_map_replace_self p st hany]
      simp
    · rw [find?_map_replace_other p i hi st, if_neg hi]
  · rw [if_neg hany, List.find?_append]
    by_cases hi : i = p.id
    · subst hi
      have hnone : st.find? (fun e => e.1 == p.id) = none := by
        rw [List.find?_eq_none]
        intro x hx hcontra
        exact hany (List.any_eq_true.mpr ⟨x, hx, hcontra⟩)
      rw [hnone]
      simp
    · have h2 : List.find? (fun e => e.1 == i) [(p.id, p.payload)] = none := by
        have hh : ¬ ((p.id, p.payload).1 == i) = true := by simpa using Ne.symm hi
        rw [@List.find?_cons_of_neg _ (fun x => x.1 == i) (p.id, p.payload) [] hh]
        rfl
      rw [h2, if_neg hi]
      simp

theorem lookup_upsertAll_ne :
    ∀ (ps : List PointStruct) (st : Store) (i : Nat), (∀ p ∈ ps, p.id ≠ i) →
      lookupStore (upsertAll st ps) i = lookupStore st i := by
  intro ps
  induction ps with
  | nil => intro st i _; rfl
  | cons q rest ih =>
    intro st i h
    have hq : q.id ≠ i := h q (by simp)
    show lookupStore (upsertAll (upsertOne st q) rest) i = lookupStore st i
    rw [ih (upsertOne st q) i (fun p hp => h p (by simp [hp]))]
    rw [lookup_upsertOne, if_neg (fun hcontra => hq hcontra.symm)]

theorem lookup_upsertAll_mem :
    ∀ (ps : List PointStruct) (st : Store) (p : PointStruct), p ∈ ps →
      (ps.map PointStruct.id).Nodup →
      lookupStore (upsertAll st ps) p.id = some p.payload := by
  intro ps
  induction ps with
  | nil => intro st p hp; simp at hp
  | cons q rest ih =>
    intro st p hp hnd
    simp only [List.map_cons, List.nodup_cons] at hnd
    rcases List.mem_cons.mp hp with rfl | hrest
    · show lookupStore (upsertAll (upsertOne st p) rest) p.id = some p.payload
      rw [lookup_upsertAll_ne rest (upsertOne st p) p.id
        (fun r hr hcontra => hnd.1 (hcontra ▸ List.mem_map_of_mem PointStruct.id hr))]
      rw [lookup_upsertOne, if_pos rfl]
    · exact ih (upsertOne st q) p hrest hnd.2

theorem ingestLoop_store_eq (f : String → List ℚ) :
    ∀ (cs : List (List Record)) (s c : Nat) (st : Store) (stored ec : Nat),
      (ingestLoop f cs s c st stored ec).store
        = upsertAll st (ingestLoop f cs s c st stored ec).points := by
  intro cs
  induction cs with
  | nil => intro s c st stored ec; rfl
  | cons batch rest ih =>
    intro s c st stored ec
    simp only [ingestLoop]
    rw [ih]
    unfold upsertAll
    rw [List.foldl_append]
    by_cases hpts : batchPoints f s c batch = []
    · simp [hpts]
    · simp [hpts]

theorem ingest_store_eq (f : String → List ℚ) (ce : Bool) (st : Store)
    (data : List Record) (b : Nat) :
    (load_json_and_store f ce st data b).store
      = upsertAll st (load_json_and_store f ce st data b).points := by
  unfold load_json_and_store
  by_cases hval : filterNew (scanStore st) data = []
  · simp [hval, upsertAll]
  · simp only [hval, ite_false]
    exact ingestLoop_store_eq f (chunks b (filterNew (scanStore st) data)) 0 0 st 0 _

/-! ### C3: run-scoped consecutive point ids and overwrite on re-ingest -/

/-- C3: within one ingest call, point identifiers are assigned consecutively
from 0 in construction order (`points.map id = range`); the counter is local
to the call, so when both of two successive calls construct at least one
point, identifier 0 (and every shared lower identifier) is assigned by both;
and since upsert overwrites by point identifier, after the second call every
point of the second call is what the store holds at its identifier. -/
theorem C3_point_id_reuse (f : String → List ℚ) (st : Store) (data1 data2 : List Record)
    (b : Nat) (hb : 1 ≤ b) :
    (load_json_and_store f true st data1 b).points.map PointStruct.id
      = List.range (load_json_and_store f true st data1 b).points.length ∧
    (load_json_and_store f true (load_json_and_store f true st data1 b).store
        data2 b).points.map PointStruct.id
      = List.range (load_json_and_store f true (load_json_and_store f true st data1 b).store
        data2 b).points.length ∧
    (∀ p ∈ (load_json_and_store f true (load_json_and_store f true st data1 b).store
        data2 b).points,
      lookupStore (load_json_and_store f true (load_json_and_store f true st data1 b).store
        data2 b).store p.id = some p.payload) ∧
    ((load_json_and_store f true st data1 b).points ≠ [] →
      (load_json_and_store f true (load_json_and_store f true st data1 b).store
        data2 b).points ≠ [] →
      0 ∈ (load_json_and_store f true st data1 b).points.map PointStruct.id ∧
      0 ∈ (load_json_and_store f true (load_json_and_store f true st data1 b).store
        data2 b).points.map PointStruct.id) := by
  have h1 := ingest_points_map_id f true st data1 b
  have h2 := ingest_points_map_id f true (load_json_and_store f true st data1 b).store data2 b
  refine ⟨h1, h2, ?_, ?_⟩
  · intro p hp
    rw [ingest_store_eq]
    exact lookup_upsertAll_mem _ _ p hp (by rw [h2]; exact List.nodup_range _)
  · intro hne1 hne2
    constructor
    · rw [h1]
      exact List.mem_range.mpr (List.length_pos.mpr hne1)
    · rw [h2]
      exact List.mem_range.mpr (List.length_pos.mpr hne2)

/-- C3 witness: two one-record ingests on an initially empty store both assign
point identifier 0. -/
theorem C3_witness :
    0 ∈ (load_json_and_store (fun _ => []) true []
        [[("_id", JVal.str "x"), ("QuestionText", JVal.str "q1")]] 10).points.map
        PointStruct.id ∧
    0 ∈ (load_json_and_store (fun _ => []) true
        (load_json_and_store (fun _ => []) true []
          [[("_id", JVal.str "x"), ("QuestionText", JVal.str "q1")]] 10).store
        [[("_id", JVal.str "y"), ("QuestionText", JVal.str "q2")]] 10).points.map
        PointStruct.id := by
  exact (C3_point_id_reuse (fun _ => []) []
    [[("_id", JVal.str "x"), ("QuestionText", JVal.str "q1")]]
    [[("_id", JVal.str "y"), ("QuestionText", JVal.str "q2")]] 10
    (by decide)).2.2.2 (by decide) (by decide)

/-! ### Batch-size independence of constructed point data -/

theorem primaryPoints_map_data (f : String → List ℚ) :
    ∀ (l : List Record) (s c : Nat),
      (primaryPoints f s c l).map pointData = primDatas f s l := by
  intro l
  induction l with
  | nil => intro s c; rfl
  | cons o os ih =>
    intro s c
    simp only [primaryPoints, List.map_cons, primDatas, pointData]
    rw [ih (s + 1) (c + 1)]

theorem visualPoints_map_data (f : String → List ℚ) :
    ∀ (es : List (Nat × Record)) (c : Nat),
      (visualPoints f c es).map pointData = visDatas f es := by
  intro es
  induction es with
  | nil => intro c; rfl
  | cons e rest ih =>
    intro c
    simp only [visualPoints, List.map_cons, visDatas, pointData]
    rw [ih (c + 1)]

theorem primDatas_append (f : String → List ℚ) :
    ∀ (l1 l2 : List Record) (s : Nat),
      primDatas f s (l1 ++ l2) = primDatas f s l1 ++ primDatas f (s + l1.length) l2 := by
  intro l1
  induction l1 with
  | nil => intro l2 s; simp [primDatas]
  | cons o os ih =>
    intro l2 s
    simp only [List.cons_append, primDatas, List.length_cons, List.append_eq]
    rw [ih l2 (s + 1)]
    have : s + 1 + os.length = s + (os.length + 1) := by omega
    rw [this]

theorem visEntries_append :
    ∀ (l1 l2 : List Record) (s : Nat),
      visEntries s (l1 ++ l2) = visEntries s l1 ++ visEntries (s + l1.length) l2 := by
  intro l1
  induction l1 with
  | nil => intro l2 s; simp [visEntries]
  | cons o os ih =>
    intro l2 s
    simp only [List.cons_append, visEntries, List.length_cons, List.append_eq]
    have harith : s + 1 + os.length = s + (os.length + 1) := by omega
    by_cases hvc : prepare_text_with_visual_context o = ""
    · rw [if_pos hvc, if_pos hvc, ih l2 (s + 1), harith]
    · rw [if_neg hvc, if_neg hvc, ih l2 (s + 1), harith]
      rfl

theorem visDatas_append (f : String → List ℚ) :
    ∀ (e1 e2 : List (Nat × Record)),
      visDatas f (e1 ++ e2) = visDatas f e1 ++ visDatas f e2 := by
  intro e1
  induction e1 with
  | nil => intro e2; rfl
  | cons e rest ih =>
    intro e2
    simp only [List.cons_append, visDatas, List.append_eq]
    rw [ih e2]

theorem batchPoints_map_data (f : String → List ℚ) (s c : Nat) (batch : List Record) :
    (batchPoints f s c batch).map pointData
      = primDatas f s batch ++ visDatas f (visEntries s batch) := by
  simp only [batchPoints, List.map_append]
  rw [primaryPoints_map_data, visualPoints_map_data]

theorem ingestLoop_points_perm (f : String → List ℚ) :
    ∀ (cs : List (List Record)) (s c : Nat) (st : Store) (stored ec : Nat),
      List.Perm ((ingestLoop f cs s c st stored ec).points.map pointData)
        (primDatas f s cs.flatten ++ visDatas f (visEntries s cs.flatten)) := by
  intro cs
  induction cs with
  | nil => intro s c st stored ec; simp [ingestLoop, primDatas, visEntries, visDatas]
  | cons batch rest ih =>
    intro s c st stored ec
    simp only [ingestLoop, List.map_append, List.flatten_cons]
    rw [batchPoints_map_data]
    rw [primDatas_append, visEntries_append, visDatas_append]
    have hih := ih (s + batch.length) (c + (batchPoints f s c batch).length)
      (if batchPoints f s c batch = [] then st else upsertAll st (batchPoints f s c batch))
      (stored + batch.length) (ec + 1 + if visEntries s batch = [] then 0 else 1)
    have h1 : List.Perm
        ((primDatas f s batch ++ visDatas f (visEntries s batch)) ++
          (ingestLoop f rest (s + batch.length) (c + (batchPoints f s c batch).length)
            (if batchPoints f s c batch = [] then st else upsertAll st (batchPoints f s c batch))
            (stored + batch.length) (ec + 1 + if visEntries s batch = [] then 0 else 1)).points.map
              pointData)
        ((primDatas f s batch ++ visDatas f (visEntries s batch)) ++
          (primDatas f (s + batch.length) rest.flatten ++
            visDatas f (visEntries (s + batch.length) rest.flatten))) :=
      hih.append_left _
    refine h1.trans ?_
    have h2 : List.Perm
        (visDatas f (visEntries s batch) ++
          (primDatas f (s + batch.length) rest.flatten ++
            visDatas f (visEntries (s + batch.length) rest.flatten)))
        (primDatas f (s + batch.length) rest.flatten ++
          (visDatas f (visEntries s batch) ++
            visDatas f (visEntries (s + batch.length) rest.flatten))) :=
      List.perm_append_comm_assoc _ _ _
    have heq1 : (primDatas f s batch ++ visDatas f (visEntries s batch)) ++
        (primDatas f (s + batch.length) rest.flatten ++
          visDatas f (visEntries (s + batch.length) rest.flatten))
        = primDatas f s batch ++ (visDatas f (visEntries s batch) ++
            (primDatas f (s + batch.length) rest.flatten ++
              visDatas f (visEntries (s + batch.length) rest.flatten))) := by
      simp [List.append_assoc]
    have heq2 : (primDatas f s batch ++ primDatas f (s + batch.length) rest.flatten) ++
        (visDatas f (visEntries s batch) ++
          visDatas f (visEntries (s + batch.length) rest.flatten))
        = primDatas f s batch ++ (primDatas f (s + batch.length) rest.flatten ++
            (visDatas f (visEntries s batch) ++
              visDatas f (visEntries (s + batch.length) rest.flatten))) := by
      simp [List.append_assoc]
    rw [heq1, heq2]
    exact h2.append_left _

theorem ingest_points_perm (f : String → List ℚ) (ce : Bool) (st : Store)
    (data : List Record) (b : Nat) (hb : 1 ≤ b) :
    List.Perm ((load_json_and_store f ce st data b).points.map pointData)
      (primDatas f 0 (filterNew (scanStore st) data) ++
        visDatas f (visEntries 0 (filterNew (scanStore st) data))) := by
  unfold load_json_and_store
  by_cases hval : filterNew (scanStore st) data = []
  · simp [hval, primDatas, visEntries, visDatas]
  · simp only [hval, ite_false]
    have h := ingestLoop_points_perm f (chunks b (filterNew (scanStore st) data)) 0 0 st 0
      (if ce then 0 else 1)
    rw [chunks_flatten b _ hb] at h
    exact h

theorem ingestLoop_stored (f : String → List ℚ) :
    ∀ (cs : List (List Record)) (s c : Nat) (st : Store) (stored ec : Nat),
      (ingestLoop f cs s c st stored ec).stored = stored + cs.flatten.length := by
  intro cs
  induction cs with
  | nil => intro s c st stored ec; simp [ingestLoop]
  | cons batch rest ih =>
    intro s c st stored ec
    simp only [ingestLoop, List.flatten_cons, List.length_append]
    rw [ih]
    omega

theorem ingest_count (f : String → List ℚ) (ce : Bool) (st : Store)
    (data : List Record) (b : Nat) (hb : 1 ≤ b) :
    (load_json_and_store f ce st data b).count
      = (filterNew (scanStore st) data).length := by
  unfold load_json_and_store
  by_cases hval : filterNew (scanStore st) data = []
  · simp [hval]
  · simp only [hval, ite_false]
    have h := ingestLoop_stored f (chunks b (filterNew (scanStore st) data)) 0 0 st 0
      (if ce then 0 else 1)
    rw [chunks_flatten b _ hb] at h
    simpa using h

/-! ### C10: batch-size invariance -/

/-- C10: for any two positive batch sizes, an ingest call returns the same
count and constructs the same multiset of points up to the run-scoped point
id — identical embedding vectors and identical payloads, provenance index
included; only the number of adapter calls differs. -/
theorem C10_batch_size_invariance (f : String → List ℚ) (ce : Bool) (st : Store)
    (data : List Record) (b1 b2 : Nat) (h1 : 1 ≤ b1) (h2 : 1 ≤ b2) :
    (load_json_and_store f ce st data b1).count
      = (load_json_and_store f ce st data b2).count ∧
    List.Perm ((load_json_and_store f ce st data b1).points.map pointData)
      ((load_json_and_store f ce st data b2).points.map pointData) := by
  constructor
  · rw [ingest_count f ce st data b1 h1, ingest_count f ce st data b2 h2]
  · exact (ingest_points_perm f ce st data b1 h1).trans
      (ingest_points_perm f ce st data b2 h2).symm

/-- C10 witness: three records ingested with batch sizes 1 and 10 give the
same count. -/
theorem C10_witness :
    (load_json_and_store (fun _ => []) true []
      [[("_id", JVal.str "a"), ("QuestionText", JVal.str "q1")],
       [("_id", JVal.str "b"), ("QuestionText", JVal.str "q2"),
        ("visual_context", JVal.str "pic")],
       [("_id", JVal.str "c"), ("QuestionText", JVal.str "q3")]] 1).count
      = (load_json_and_store (fun _ => []) true []
      [[("_id", JVal.str "a"), ("QuestionText", JVal.str "q1")],
       [("_id", JVal.str "b"), ("QuestionText", JVal.str "q2"),
        ("visual_context", JVal.str "pic")],
       [("_id", JVal.str "c"), ("QuestionText", JVal.str "q3")]] 10).count :=
  (C10_batch_size_invariance (fun _ => []) true []
    [[("_id", JVal.str "a"), ("QuestionText", JVal.str "q1")],
     [("_id", JVal.str "b"), ("QuestionText", JVal.str "q2"),
      ("visual_context", JVal.str "pic")],
     [("_id", JVal.str "c"), ("QuestionText", JVal.str "q3")]] 1 10
    (by decide) (by decide)).1

/-! ### C2: re-ingestion of the same record set -/

theorem upsertAll_fresh :
    ∀ (ps : List PointStruct) (st : Store), (∀ p ∈ ps, ∀ e ∈ st, e.1 ≠ p.id) →
      (ps.map PointStruct.id).Nodup →
      upsertAll st ps = st ++ ps.map (fun p => (p.id, p.payload)) := by
  intro ps
  induction ps with
  | nil => intro st _ _; simp [upsertAll]
  | cons q rest ih =>
    intro st hfresh hnd
    simp only [List.map_cons, List.nodup_cons] at hnd
    have hany : ¬ (st.any (fun e => e.1 == q.id)) = true := by
      intro hcontra
      obtain ⟨e, he, hbe⟩ := List.any_eq_true.mp hcontra
      exact hfresh q (by simp) e he (by simpa using hbe)
    have hone : upsertOne st q = st ++ [(q.id, q.payload)] := by
      unfold upsertOne
      rw [if_neg hany]
    show upsertAll (upsertOne st q) rest = st ++ ((q.id, q.payload) :: rest.map _)
    rw [hone, ih (st ++ [(q.id, q.payload)]) ?fresh hnd.2]
    · simp
    · intro p hp e he
      rcases List.mem_append.mp he with hst | hq
      · exact hfresh p (by simp [hp]) e hst
      · have heq : e = (q.id, q.payload) := by simpa using hq
        subst heq
        intro hcontra
        have : q.id = p.id := hcontra
        exact hnd.1 (this ▸ List.mem_map_of_mem PointStruct.id hp)

theorem ingest_store_from_empty (f : String → List ℚ) (data : List Record) (b : Nat) :
    (load_json_and_store f true [] data b).store
      = (load_json_and_store f true [] data b).points.map (fun p => (p.id, p.payload)) := by
  rw [ingest_store_eq]
  rw [upsertAll_fresh _ [] (by intro p _ e he; simp at he)
    (by rw [ingest_points_map_id]; exact List.nodup_range _)]
  simp

theorem mem_scanStore {st : Store} {e : Nat × Payload} {x : String}
    (he : e ∈ st) (hm : metaId e.2 = some x) : x ∈ scanStore st :=
  List.mem_filterMap.mpr ⟨e, he, hm⟩

theorem find?_filter_of_imp {α : Type} (p q : α → Bool) (h : ∀ x, q x = true → p x = true) :
    ∀ l : List α, (l.filter p).find? q = l.find? q := by
  intro l
  induction l with
  | nil => rfl
  | cons x xs ih =>
    by_cases hpx : p x = true
    · rw [List.filter_cons_of_pos hpx]
      by_cases hqx : q x = true
      · rw [List.find?_cons_of_pos _ hqx, List.find?_cons_of_pos _ hqx]
      · rw [List.find?_cons_of_neg _ hqx, List.find?_cons_of_neg _ hqx]
        exact ih
    · rw [List.filter_cons_of_neg (by simpa using hpx)]
      have hqx : ¬ q x = true := fun hq => hpx (h x hq)
      rw [List.find?_cons_of_neg _ hqx]
      exact ih

theorem getKey?_metadata_id (obj : Record) :
    getKey? (obj.filter (fun e => e.1 != "QuestionText")) "_id" = getKey? obj "_id" := by
  unfold getKey?
  rw [find?_filter_of_imp (fun e => e.1 != "QuestionText") (fun e => e.1 == "_id") ?imp obj]
  case imp =>
    intro e he
    have : e.1 = "_id" := by simpa using he
    simp [this]

theorem metaId_primaryPayload {obj : Record} {v : JVal} (i : Nat)
    (hv : getKey? obj "_id" = some v) (ht : v.truthy = true) :
    metaId (primaryPayload obj i) = some v.pyStr := by
  unfold metaId primaryPayload
  simp only []
  rw [getKey?_metadata_id obj, hv]
  simp [ht]

theorem mem_primDatas (f : String → List ℚ) :
    ∀ (l : List Record) (s : Nat) (o : Record), o ∈ l →
      ∃ i, (f (prepare_text_for_embedding o), primaryPayload o i) ∈ primDatas f s l := by
  intro l
  induction l with
  | nil => intro s o h; simp at h
  | cons x xs ih =>
    intro s o h
    rcases List.mem_cons.mp h with rfl | hxs
    · exact ⟨s, by simp [primDatas]⟩
    · obtain ⟨i, hi⟩ := ih (s + 1) o hxs
      exact ⟨i, by simp [primDatas, hi]⟩

/-- C2 counterexample: the claim fails on a collection with pre-existing
content. Start from a store holding point 0 with identifier `"x"`; ingest
`[{_id x}, {_id y}]` twice (each record carries an identifier). The first call
skips `x` as a duplicate and stores `y` at point id 0, overwriting the stored
point that carried `"x"`; the second call then no longer sees `"x"` in the
store and returns 1, not 0. -/
theorem C2_counterexample :
    getKey? [("_id", JVal.str "x"), ("QuestionText", JVal.str "q1")] "_id"
      = some (JVal.str "x") ∧
    getKey? [("_id", JVal.str "y"), ("QuestionText", JVal.str "q2")] "_id"
      = some (JVal.str "y") ∧
    (load_json_and_store (fun _ => []) true
      (load_json_and_store (fun _ => []) true
        [(0, { questionText := JVal.str "t0", visual_context := none,
               metadata := [("_id", JVal.str "x")], index := 0,
               embedding_type := "question_text_only" })]
        [[("_id", JVal.str "x"), ("QuestionText", JVal.str "q1")],
         [("_id", JVal.str "y"), ("QuestionText", JVal.str "q2")]] 10).store
      [[("_id", JVal.str "x"), ("QuestionText", JVal.str "q1")],
       [("_id", JVal.str "y"), ("QuestionText", JVal.str "q2")]] 10).count ≠ 0 := by
  exact ⟨by decide, by decide, by decide⟩

/-- C2 amended: for every record set in which each record carries a truthy
external identifier, ingesting the set twice starting from an empty
collection yields 0 newly stored records on the second call, and the store
is unchanged by the second call. (With pre-existing points in the store the
property can fail, because the run-scoped point-id counter restarts at 0 and
the first call may overwrite pre-existing points, removing their identifiers
from the scanned key set.) -/
theorem C2_amended_idempotent_from_empty (f : String → List ℚ) (data : List Record)
    (b : Nat) (hb : 1 ≤ b)
    (hid : ∀ obj ∈ data, ∃ v, getKey? obj "_id" = some v ∧ v.truthy = true) :
    (load_json_and_store f true (load_json_and_store f true [] data b).store data b).count
      = 0 ∧
    (load_json_and_store f true (load_json_and_store f true [] data b).store data b).store
      = (load_json_and_store f true [] data b).store := by
  have hval2 : filterNew (scanStore (load_json_and_store f true [] data b).store) data
      = [] := by
    rw [filterNew, List.filter_eq_nil_iff]
    intro obj hobj
    obtain ⟨v, hv, ht⟩ := hid obj hobj
    by_cases htext : prepare_text_for_embedding obj = ""
    · simp [hv, htext]
    · have hobj1 : obj ∈ filterNew (scanStore ([] : Store)) data := by
        rw [filterNew, List.mem_filter]
        refine ⟨hobj, ?_⟩
        simp [hv, htext, scanStore]
      obtain ⟨i, hmemD⟩ := mem_primDatas f (filterNew (scanStore ([] : Store)) data) 0
        obj hobj1
      have hmemPts : (f (prepare_text_for_embedding obj), primaryPayload obj i) ∈
          (load_json_and_store f true [] data b).points.map pointData :=
        (ingest_points_perm f true [] data b hb).mem_iff.mpr (List.mem_append_left _ hmemD)
      obtain ⟨p, hp, hpd⟩ := List.mem_map.mp hmemPts
      have hpl : p.payload = primaryPayload obj i := congrArg Prod.snd hpd
      have hst : (p.id, p.payload) ∈ (load_json_and_store f true [] data b).store := by
        rw [ingest_store_from_empty f data b]
        exact List.mem_map_of_mem _ hp
      have hscan : v.pyStr ∈ scanStore (load_json_and_store f true [] data b).store :=
        mem_scanStore hst (by rw [hpl]; exact metaId_primaryPayload i hv ht)
      simp [hv, ht, hscan]
  have hres : load_json_and_store f true (load_json_and_store f true [] data b).store data b
      = ⟨0, (load_json_and_store f true [] data b).store, 0, []⟩ := by
    rw [load_json_and_store]
    simp [hval2]
  rw [hres]
  exact ⟨rfl, rfl⟩

/-- C2 witness: one identified record ingested twice from an empty collection
yields 0 on the second call. -/
theorem C2_witness :
    (load_json_and_store (fun _ => []) true
      (load_json_and_store (fun _ => []) true []
        [[("_id", JVal.str "x"), ("QuestionText", JVal.str "q")]] 10).store
      [[("_id", JVal.str "x"), ("QuestionText", JVal.str "q")]] 10).count = 0 := by
  refine (C2_amended_idempotent_from_empty (fun _ => [])
    [[("_id", JVal.str "x"), ("QuestionText", JVal.str "q")]] 10 (by decide) ?_).1
  intro obj hobj
  rcases List.mem_singleton.mp hobj with rfl
  exact ⟨JVal.str "x", by decide, by decide⟩

/-! ### C8: dual-embedding point counts -/

theorem stripChars_eq_nil_iff (l : List Char) :
    stripChars l = [] ↔ ∀ c ∈ l, pySpace c = true := by
  unfold stripChars
  rw [List.reverse_eq_nil_iff, List.dropWhile_eq_nil_iff]
  constructor
  · intro h c hc
    have hsplit : c ∈ l.takeWhile pySpace ++ l.dropWhile pySpace :=
      (List.takeWhile_append_dropWhile pySpace l).symm ▸ hc
    rcases List.mem_append.mp hsplit with htk | hdw
    · exact List.mem_takeWhile_imp htk
    · exact h c (List.mem_reverse.mpr hdw)
  · intro h c hc
    have hcl : c ∈ l.dropWhile pySpace := List.mem_reverse.mp hc
    exact h c ((List.dropWhile_sublist pySpace).subset hcl)

theorem pyStrip_eq_empty_iff (s : String) :
    pyStrip s = "" ↔ ∀ c ∈ s.data, pySpace c = true := by
  unfold pyStrip
  rw [String.ext_iff]
  exact stripChars_eq_nil_iff s.data

theorem pyStrip_append_ne {s2 : String} (t : String) (h : pyStrip s2 ≠ "") :
    pyStrip (t ++ " " ++ s2) ≠ "" := by
  intro hcontra
  apply h
  rw [pyStrip_eq_empty_iff] at hcontra ⊢
  intro c hc
  apply hcontra
  have : (t ++ " " ++ s2).data = t.data ++ " ".data ++ s2.data := by
    simp [String.data_append]
  rw [this]
  exact List.mem_append_right _ hc

theorem ptwvc_none {obj : Record} (h : getKey? obj "visual_context" = none) :
    prepare_text_with_visual_context obj = "" := by
  unfold prepare_text_with_visual_context getKeyD
  rw [h]
  simp [JVal.truthy]

theorem ptwvc_str_iff {obj : Record} {s2 : String}
    (h : getKey? obj "visual_context" = some (JVal.str s2)) :
    prepare_text_with_visual_context obj = "" ↔ pyStrip s2 = "" := by
  unfold prepare_text_with_visual_context getKeyD
  rw [h]
  simp only [Option.getD_some, JVal.truthy, JVal.pyStr]
  constructor
  · intro heq
    by_contra hne
    have hs2 : s2 ≠ "" := by
      intro hrfl
      exact hne (by rw [hrfl]; rfl)
    rw [if_pos (by simp [hs2, hne])] at heq
    exact pyStrip_append_ne _ hne heq
  · intro hstrip
    rw [if_neg (by simp [hstrip])]

theorem ptwvc_char {obj : Record} {s2 : String}
    (htext : prepare_text_for_embedding obj ≠ "")
    (h : getKey? obj "visual_context" = some (JVal.str s2))
    (hne : prepare_text_with_visual_context obj ≠ "") :
    prepare_text_with_visual_context obj
      = pyStrip (prepare_text_for_embedding obj ++ " " ++ s2) := by
  have hq : (extractQT obj).truthy = true := by
    by_contra hq
    apply htext
    simp only [Bool.not_eq_true] at hq
    simp [prepare_text_for_embedding, hq]
  have hptfe : prepare_text_for_embedding obj = (extractQT obj).pyStr := by
    simp [prepare_text_for_embedding, hq]
  have hstrip : pyStrip s2 ≠ "" := by
    intro hcontra
    exact hne ((ptwvc_str_iff h).mpr hcontra)
  have hs2 : s2 ≠ "" := by
    intro hrfl
    exact hstrip (by rw [hrfl]; rfl)
  unfold prepare_text_with_visual_context getKeyD
  rw [h]
  simp only [Option.getD_some, JVal.truthy, JVal.pyStr]
  rw [if_pos (by simp [hs2, hstrip])]
  rw [hptfe]
  rfl

theorem primDatas_countP_lt (f : String → List ℚ) :
    ∀ (l : List Record) (t k : Nat), k < t →
      (primDatas f t l).countP (fun d => d.2.index == k) = 0 := by
  intro l
  induction l with
  | nil => intro t k _; rfl
  | cons o os ih =>
    intro t k hk
    simp only [primDatas, List.countP_cons]
    rw [ih (t + 1) k (by omega)]
    have : ((primaryPayload o t).index == k) = false := by
      simp [primaryPayload]
      omega
    simp [this]

theorem primDatas_countP (f : String → List ℚ) :
    ∀ (l : List Record) (s g : Nat),
      (primDatas f s l).countP (fun d => d.2.index == s + g)
        = if g < l.length then 1 else 0 := by
  intro l
  induction l with
  | nil => intro s g; simp [primDatas]
  | cons o os ih =>
    intro s g
    cases g with
    | zero =>
      simp only [primDatas, List.countP_cons]
      rw [primDatas_countP_lt f os (s + 1) (s + 0) (by omega)]
      have hbeq : ((primaryPayload o s).index == s + 0) = true := by simp [primaryPayload]
      rw [hbeq]
      simp
    | succ g2 =>
      simp only [primDatas, List.countP_cons]
      have harith : s + (g2 + 1) = (s + 1) + g2 := by omega
      rw [harith, ih (s + 1) g2]
      have hbeq : ((primaryPayload o s).index == s + 1 + g2) = false := by
        simp [primaryPayload]
        omega
      rw [hbeq]
      simp only [if_false, Nat.add_zero, List.length_cons, Bool.false_eq_true]
      by_cases hlt : g2 < os.length
      · rw [if_pos hlt, if_pos (show g2 + 1 < os.length + 1 by omega)]
      · rw [if_neg hlt, if_neg (show ¬ g2 + 1 < os.length + 1 by omega)]

theorem visEntries_ge :
    ∀ (l : List Record) (s : Nat) (e : Nat × Record), e ∈ visEntries s l → s ≤ e.1 := by
  intro l
  induction l with
  | nil => intro s e h; simp [visEntries] at h
  | cons o os ih =>
    intro s e h
    simp only [visEntries] at h
    by_cases hvc : prepare_text_with_visual_context o = ""
    · rw [if_pos hvc] at h
      have := ih (s + 1) e h
      omega
    · rw [if_neg hvc] at h
      rcases List.mem_cons.mp h with rfl | hmem
      · simp
      · have := ih (s + 1) e hmem
        omega

theorem visDatas_countP_zero (f : String → List ℚ) :
    ∀ (es : List (Nat × Record)) (k : Nat), (∀ e ∈ es, e.1 ≠ k) →
      (visDatas f es).countP (fun d => d.2.index == k) = 0 := by
  intro es
  induction es with
  | nil => intro k _; rfl
  | cons e rest ih =>
    intro k h
    simp only [visDatas, List.countP_cons]
    rw [ih k (fun x hx => h x (by simp [hx]))]
    have hne : e.1 ≠ k := h e (by simp)
    have : ((visualPayload e.2 e.1).index == k) = false := by
      simp [visualPayload]
      omega
    simp [this]

theorem visDatas_countP (f : String → List ℚ) :
    ∀ (l : List Record) (s g : Nat) (hg : g < l.length),
      (visDatas f (visEntries s l)).countP (fun d => d.2.index == s + g)
        = if prepare_text_with_visual_context (l.get ⟨g, hg⟩) = "" then 0 else 1 := by
  intro l
  induction l with
  | nil => intro s g hg; simp at hg
  | cons o os ih =>
    intro s g hg
    cases g with
    | zero =>
      simp only [visEntries, List.get]
      by_cases hvc : prepare_text_with_visual_context o = ""
      · rw [if_pos hvc, if_pos hvc]
        exact visDatas_countP_zero f (visEntries (s + 1) os) (s + 0)
          (fun e he => by have := visEntries_ge os (s + 1) e he; omega)
      · rw [if_neg hvc, if_neg hvc]
        simp only [visDatas, List.countP_cons]
        rw [visDatas_countP_zero f (visEntries (s + 1) os) (s + 0)
          (fun e he => by have := visEntries_ge os (s + 1) e he; omega)]
        have hbeq : ((visualPayload o s).index == s + 0) = true := by simp [visualPayload]
        rw [hbeq]
        simp
    | succ g2 =>
      have hg2 : g2 < os.length := by simpa using hg
      have harith : s + (g2 + 1) = (s + 1) + g2 := by omega
      simp only [visEntries, List.get]
      by_cases hvc : prepare_text_with_visual_context o = ""
      · rw [if_pos hvc, harith]
        exact ih (s + 1) g2 hg2
      · rw [if_neg hvc]
        simp only [visDatas, List.countP_cons]
        rw [harith, ih (s + 1) g2 hg2]
        have : ((visualPayload o s).index == s + 1 + g2) = false := by
          simp [visualPayload]
          omega
        simp [this]

theorem mem_visEntries :
    ∀ (l : List Record) (s g : Nat) (hg : g < l.length),
      prepare_text_with_visual_context (l.get ⟨g, hg⟩) ≠ "" →
      (s + g, l.get ⟨g, hg⟩) ∈ visEntries s l := by
  intro l
  induction l with
  | nil => intro s g hg; simp at hg
  | cons o os ih =>
    intro s g hg hne
    cases g with
    | zero =>
      simp only [List.get] at hne ⊢
      simp only [visEntries, if_neg hne]
      simp
    | succ g2 =>
      have hg2 : g2 < os.length := by simpa using hg
      simp only [List.get] at hne ⊢
      have harith : s + (g2 + 1) = (s + 1) + g2 := by omega
      rw [harith]
      have hmem := ih (s + 1) g2 hg2 hne
      simp only [visEntries]
      by_cases hvc : prepare_text_with_visual_context o = ""
      · rw [if_pos hvc]
        exact hmem
      · rw [if_neg hvc]
        exact List.mem_cons_of_mem _ hmem

theorem mem_visDatas (f : String → List ℚ) :
    ∀ (es : List (Nat × Record)) (e : Nat × Record), e ∈ es →
      (f (prepare_text_with_visual_context e.2), visualPayload e.2 e.1) ∈ visDatas f es := by
  intro es
  induction es with
  | nil => intro e h; simp at h
  | cons x rest ih =>
    intro e h
    rcases List.mem_cons.mp h with rfl | hmem
    · simp [visDatas]
    · exact List.mem_cons_of_mem _ (ih e hmem)

/-- C8: for the record at position `g` of the filtered input (every such
record has usable primary text), the ingest call constructs exactly 2 points
carrying provenance index `g` when the record's `visual_context` is a string
that is non-empty after stripping, and exactly 1 otherwise (in particular
when the key is absent); the context variant embeds the space-joined,
stripped concatenation of the primary text and the supplementary context. -/
theorem C8_dual_embedding_count (f : String → List ℚ) (st : Store) (data : List Record)
    (b g : Nat) (hb : 1 ≤ b) (hg : g < (filterNew (scanStore st) data).length) :
    (((load_json_and_store f true st data b).points.filter
        (fun p => p.payload.index == g)).length
      = if prepare_text_with_visual_context
          ((filterNew (scanStore st) data).get ⟨g, hg⟩) = "" then 1 else 2) ∧
    (∀ s2, getKey? ((filterNew (scanStore st) data).get ⟨g, hg⟩) "visual_context"
        = some (JVal.str s2) →
      (prepare_text_with_visual_context ((filterNew (scanStore st) data).get ⟨g, hg⟩) = ""
        ↔ pyStrip s2 = "")) ∧
    (getKey? ((filterNew (scanStore st) data).get ⟨g, hg⟩) "visual_context" = none →
      prepare_text_with_visual_context ((filterNew (scanStore st) data).get ⟨g, hg⟩) = "") ∧
    (∀ s2, getKey? ((filterNew (scanStore st) data).get ⟨g, hg⟩) "visual_context"
        = some (JVal.str s2) →
      prepare_text_with_visual_context ((filterNew (scanStore st) data).get ⟨g, hg⟩) ≠ "" →
      ∃ p, p ∈ (load_json_and_store f true st data b).points ∧
        p.payload.index = g ∧
        p.payload.embedding_type = "question_text_with_visual_context" ∧
        p.vector = f (pyStrip (prepare_text_for_embedding
          ((filterNew (scanStore st) data).get ⟨g, hg⟩) ++ " " ++ s2))) := by
  refine ⟨?count, ?iff, ?none, ?exist⟩
  case count =>
    rw [← List.countP_eq_length_filter]
    have h1 : List.countP (fun p => p.payload.index == g)
          (load_json_and_store f true st data b).points
        = List.countP (fun d => d.2.index == g)
          ((load_json_and_store f true st data b).points.map pointData) := by
      rw [List.countP_map]
      rfl
    rw [h1, (ingest_points_perm f true st data b hb).countP_eq, List.countP_append]
    have hzg : (fun d : List ℚ × Payload => d.2.index == g)
        = (fun d : List ℚ × Payload => d.2.index == 0 + g) := by
      funext d
      simp
    rw [hzg, primDatas_countP f _ 0 g, visDatas_countP f _ 0 g hg, if_pos hg]
    by_cases hvc : prepare_text_with_visual_context
        ((filterNew (scanStore st) data).get ⟨g, hg⟩) = ""
    · rw [if_pos hvc, if_pos hvc]
    · rw [if_neg hvc, if_neg hvc]
  case iff =>
    intro s2 h
    exact ptwvc_str_iff h
  case none =>
    intro h
    exact ptwvc_none h
  case exist =>
    intro s2 h hne
    have hvE := mem_visEntries (filterNew (scanStore st) data) 0 g hg hne
    have hvD := mem_visDatas f (visEntries 0 (filterNew (scanStore st) data))
      (0 + g, (filterNew (scanStore st) data).get ⟨g, hg⟩) hvE
    have hmemPts : (f (prepare_text_with_visual_context
          ((filterNew (scanStore st) data).get ⟨g, hg⟩)),
        visualPayload ((filterNew (scanStore st) data).get ⟨g, hg⟩) (0 + g)) ∈
        (load_json_and_store f true st data b).points.map pointData :=
      (ingest_points_perm f true st data b hb).mem_iff.mpr (List.mem_append_right _ hvD)
    obtain ⟨p, hp, hpd⟩ := List.mem_map.mp hmemPts
    have hvec : p.vector = f (prepare_text_with_visual_context
        ((filterNew (scanStore st) data).get ⟨g, hg⟩)) := congrArg Prod.fst hpd
    have hpl : p.payload = visualPayload ((filterNew (scanStore st) data).get ⟨g, hg⟩)
        (0 + g) := congrArg Prod.snd hpd
    have htext : prepare_text_for_embedding
        ((filterNew (scanStore st) data).get ⟨g, hg⟩) ≠ "" :=
      (mem_filterNew (List.get_mem _ g hg)).2
    refine ⟨p, hp, ?_, ?_, ?_⟩
    · rw [hpl]
      simp [visualPayload]
    · rw [hpl]
      rfl
    · rw [hvec, ptwvc_char htext h hne]

/-- C8 witness: a record with `visual_context " ctx "` yields exactly 2 points
at its provenance index. -/
theorem C8_witness :
    ((load_json_and_store (fun _ => []) true []
        [[("_id", JVal.str "v"), ("QuestionText", JVal.str "q"),
          ("visual_context", JVal.str " ctx ")]] 10).points.filter
        (fun p => p.payload.index == 0)).length = 2 := by
  have h := (C8_dual_embedding_count (fun _ => []) []
    [[("_id", JVal.str "v"), ("QuestionText", JVal.str "q"),
      ("visual_context", JVal.str " ctx ")]] 10 0 (by decide) (by decide)).1
  exact h.trans (by decide)

/-! ### C4 and C5: search dedup, best-score retention, ordering -/

theorem idNe_symmetric : Symmetric (fun a b : SearchResult => a.id ≠ b.id) :=
  fun _ _ h => h.symm

theorem updateBest_id_map (r : SearchResult) (x : SearchResult) :
    (if x.id == r.id && decide (x.score < r.score) then r else x).id = x.id := by
  by_cases hc : (x.id == r.id && decide (x.score < r.score)) = true
  · rw [if_pos hc]
    have := (Bool.and_eq_true _ _).mp hc
    have hid : x.id = r.id := by simpa using this.1
    exact hid.symm
  · rw [if_neg hc]

theorem updateBest_pairwise {acc : List SearchResult} {r : SearchResult}
    (h : acc.Pairwise (fun a b => a.id ≠ b.id)) :
    (updateBest acc r).Pairwise (fun a b => a.id ≠ b.id) := by
  unfold updateBest
  by_cases hany : (acc.any fun x => x.id == r.id) = true
  · rw [if_pos hany]
    rw [List.pairwise_map]
    refine h.imp ?_
    intro a b hab
    rw [updateBest_id_map r a, updateBest_id_map r b]
    exact hab
  · rw [if_neg hany]
    rw [List.pairwise_append]
    refine ⟨h, List.pairwise_singleton _ _, ?_⟩
    intro a ha b hb
    have hb1 : b = r := by simpa using hb
    subst hb1
    intro hcontra
    have : ∃ x ∈ acc, (x.id == b.id) = true := ⟨a, ha, by simp [hcontra]⟩
    exact hany (List.any_eq_true.mpr this)

theorem updateBest_mem {acc : List SearchResult} {r x : SearchResult}
    (hx : x ∈ updateBest acc r) : x ∈ acc ∨ x = r := by
  unfold updateBest at hx
  by_cases hany : (acc.any fun z => z.id == r.id) = true
  · rw [if_pos hany] at hx
    obtain ⟨a, ha, rfl⟩ := List.mem_map.mp hx
    by_cases hc : (a.id == r.id && decide (a.score < r.score)) = true
    · rw [if_pos hc]
      exact Or.inr rfl
    · rw [if_neg hc]
      exact Or.inl ha
  · rw [if_neg hany] at hx
    rcases List.mem_append.mp hx with h1 | h2
    · exact Or.inl h1
    · exact Or.inr (by simpa using h2)

theorem updateBest_persist {acc : List SearchResult} {r y : SearchResult}
    (hy : y ∈ acc) :
    ∃ x ∈ updateBest acc r, x.id = y.id ∧ y.score ≤ x.score := by
  unfold updateBest
  by_cases hany : (acc.any fun z => z.id == r.id) = true
  · rw [if_pos hany]
    refine ⟨if y.id == r.id && decide (y.score < r.score) then r else y,
      List.mem_map_of_mem _ hy, updateBest_id_map r y, ?_⟩
    by_cases hc : (y.id == r.id && decide (y.score < r.score)) = true
    · rw [if_pos hc]
      have := (Bool.and_eq_true _ _).mp hc
      exact le_of_lt (by simpa using this.2)
    · rw [if_neg hc]
  · rw [if_neg hany]
    exact ⟨y, List.mem_append_left _ hy, rfl, le_refl _⟩

theorem updateBest_seen (acc : List SearchResult) (r : SearchResult) :
    ∃ x ∈ updateBest acc r, x.id = r.id ∧ r.score ≤ x.score := by
  unfold updateBest
  by_cases hany : (acc.any fun z => z.id == r.id) = true
  · rw [if_pos hany]
    obtain ⟨a, ha, hbe⟩ := List.any_eq_true.mp hany
    have haid : a.id = r.id := by simpa using hbe
    refine ⟨if a.id == r.id && decide (a.score < r.score) then r else a,
      List.mem_map_of_mem _ ha, ?_, ?_⟩
    · rw [updateBest_id_map r a]
      exact haid
    · by_cases hlt : a.score < r.score
      · rw [if_pos (by simp [haid, hlt])]
      · rw [if_neg (by simp [hlt])]
        exact le_of_not_lt hlt
  · rw [if_neg hany]
    exact ⟨r, List.mem_append_right _ (by simp), rfl, le_refl _⟩

theorem dedupFold_spec :
    ∀ (ms : List ScoredPoint) (acc : List SearchResult),
      acc.Pairwise (fun a b => a.id ≠ b.id) →
      (ms.foldl (fun a m => updateBest a (toResult m)) acc).Pairwise
        (fun a b => a.id ≠ b.id) ∧
      (∀ x ∈ ms.foldl (fun a m => updateBest a (toResult m)) acc,
        x ∈ acc ∨ ∃ m ∈ ms, toResult m = x) ∧
      (∀ y ∈ acc, ∃ x ∈ ms.foldl (fun a m => updateBest a (toResult m)) acc,
        x.id = y.id ∧ y.score ≤ x.score) ∧
      (∀ m ∈ ms, ∃ x ∈ ms.foldl (fun a m => updateBest a (toResult m)) acc,
        x.id = resultId m) ∧
      (∀ x ∈ ms.foldl (fun a m => updateBest a (toResult m)) acc,
        ∀ m ∈ ms, resultId m = x.id → m.score ≤ x.score) := by
  intro ms
  induction ms with
  | nil =>
    intro acc h
    refine ⟨h, fun x hx => Or.inl hx, fun y hy => ⟨y, hy, rfl, le_refl _⟩, ?_, ?_⟩
    · intro m hm
      simp at hm
    · intro x _ m hm
      simp at hm
  | cons m0 rest ih =>
    intro acc h
    have hP1 := updateBest_pairwise (r := toResult m0) h
    obtain ⟨A, B, C, D, E⟩ := ih (updateBest acc (toResult m0)) hP1
    simp only [List.foldl_cons]
    refine ⟨A, ?_, ?_, ?_, ?_⟩
    · intro x hx
      rcases B x hx with h1 | ⟨m, hm, hmx⟩
      · rcases updateBest_mem h1 with h2 | h2
        · exact Or.inl h2
        · exact Or.inr ⟨m0, by simp, h2.symm⟩
      · exact Or.inr ⟨m, by simp [hm], hmx⟩
    · intro y hy
      obtain ⟨x1, hx1, hid1, hs1⟩ := updateBest_persist (r := toResult m0) hy
      obtain ⟨x2, hx2, hid2, hs2⟩ := C x1 hx1
      exact ⟨x2, hx2, by rw [hid2, hid1], le_trans hs1 hs2⟩
    · intro m hm
      rcases List.mem_cons.mp hm with rfl | hmrest
      · obtain ⟨x1, hx1, hid1, _⟩ := updateBest_seen acc (toResult m)
        obtain ⟨x2, hx2, hid2, _⟩ := C x1 hx1
        exact ⟨x2, hx2, by rw [hid2, hid1]; rfl⟩
      · exact D m hmrest
    · intro x hx m hm hid
      rcases List.mem_cons.mp hm with rfl | hmrest
      · obtain ⟨x1, hx1, hid1, hs1⟩ := updateBest_seen acc (toResult m)
        obtain ⟨x2, hx2, hid2, hs2⟩ := C x1 hx1
        have hxid2 : x2.id = x.id := by
          rw [hid2, hid1]
          exact hid
        have hxx2 : x = x2 := by
          by_contra hne
          exact A.forall idNe_symmetric hx hx2 hne hxid2.symm
        have : (toResult m).score ≤ x2.score := le_trans hs1 hs2
        rw [hxx2]
        exact this
      · exact E x hx m hmrest hid

/-- C4: a search response never contains two results with the same external
identifier; every returned result's score is the maximum score among all
store matches carrying that identifier (and is realised by one of them); and
the per-match bookkeeping replaces the stored entry exactly when the new
match scores strictly higher, discarding it otherwise. -/
theorem C4_search_dedup_best_score (ms : List ScoredPoint) (limit : Nat) :
    (search_similar ms limit).Pairwise (fun a b => a.id ≠ b.id) ∧
    (∀ x ∈ search_similar ms limit,
      (∀ m ∈ ms, resultId m = x.id → m.score ≤ x.score) ∧
      (∃ m ∈ ms, resultId m = x.id ∧ m.score = x.score)) ∧
    (∀ (acc : List SearchResult) (r x : SearchResult),
      acc.Pairwise (fun a b => a.id ≠ b.id) → x ∈ acc → x.id = r.id →
      x.score < r.score →
      updateBest acc r = acc.map (fun y => if y.id == r.id then r else y)) ∧
    (∀ (acc : List SearchResult) (r x : SearchResult),
      acc.Pairwise (fun a b => a.id ≠ b.id) → x ∈ acc → x.id = r.id →
      ¬ x.score < r.score → updateBest acc r = acc) := by
  obtain ⟨A, B, C, D, E⟩ := dedupFold_spec ms [] List.Pairwise.nil
  have hperm : List.Perm (List.insertionSort resGE (dedupResults ms)) (dedupResults ms) :=
    List.perm_insertionSort resGE (dedupResults ms)
  have hmem_of : ∀ x ∈ search_similar ms limit, x ∈ dedupResults ms := by
    intro x hx
    exact hperm.subset (List.mem_of_mem_take hx)
  refine ⟨?_, ?_, ?_, ?_⟩
  · have hsorted : (List.insertionSort resGE (dedupResults ms)).Pairwise
        (fun a b => a.id ≠ b.id) :=
      (hperm.pairwise_iff (fun hab => Ne.symm hab)).mpr A
    exact hsorted.sublist (List.take_sublist _ _)
  · intro x hx
    have hxd : x ∈ dedupResults ms := hmem_of x hx
    refine ⟨fun m hm hid => E x hxd m hm hid, ?_⟩
    rcases B x hxd with h1 | ⟨m, hm, hmx⟩
    · simp at h1
    · refine ⟨m, hm, ?_, ?_⟩
      · rw [← hmx]
        rfl
      · rw [← hmx]
        rfl
  · intro acc r x hP hx hid hlt
    unfold updateBest
    have hany : (acc.any fun z => z.id == r.id) = true :=
      List.any_eq_true.mpr ⟨x, hx, by simp [hid]⟩
    rw [if_pos hany]
    apply List.map_congr_left
    intro y hy
    by_cases hyid : (y.id == r.id) = true
    · have hyx : y = x := by
        have hyid2 : y.id = x.id := by
          have : y.id = r.id := by simpa using hyid
          rw [this, hid]
        by_contra hne
        exact hP.forall idNe_symmetric hy hx hne hyid2
      subst hyx
      rw [if_pos (by simp [hyid, hlt]), if_pos hyid]
    · have hyidf : (y.id == r.id) = false := by simpa using hyid
      rw [if_neg (by simp [hyidf]), if_neg (by simp [hyidf])]
  · intro acc r x hP hx hid hnlt
    unfold updateBest
    have hany : (acc.any fun z => z.id == r.id) = true :=
      List.any_eq_true.mpr ⟨x, hx, by simp [hid]⟩
    rw [if_pos hany]
    have hcongr : ∀ y ∈ acc,
        (if y.id == r.id && decide (y.score < r.score) then r else y) = id y := by
      intro y hy
      by_cases hyid : (y.id == r.id) = true
      · have hyx : y = x := by
          have hyid2 : y.id = x.id := by
            have : y.id = r.id := by simpa using hyid
            rw [this, hid]
          by_contra hne
          exact hP.forall idNe_symmetric hy hx hne hyid2
        subst hyx
        rw [if_neg (by simp [hnlt])]
        rfl
      · have hyidf : (y.id == r.id) = false := by simpa using hyid
        rw [if_neg (by simp [hyidf])]
        rfl
    rw [List.map_congr_left hcongr, List.map_id]

/-- C4 witness: a second match with the same identifier and a strictly higher
score replaces the stored entry in place. -/
theorem C4_witness :
    updateBest [{ id := "a", question := [], score := 1, point_id := "0" }]
      { id := "a", question := [], score := 2, point_id := "1" }
      = [{ id := "a", question := [], score := 2, point_id := "1" }] := by
  have h := (C4_search_dedup_best_score [] 0).2.2.1
    [{ id := "a", question := [], score := 1, point_id := "0" }]
    { id := "a", question := [], score := 2, point_id := "1" }
    { id := "a", question := [], score := 1, point_id := "0" }
    (List.pairwise_singleton _ _) (by simp) rfl (by norm_num)
  rw [h]
  decide

theorem orderedInsert_filter_score (a : SearchResult) (c : ℚ) :
    ∀ l : List SearchResult,
      (List.orderedInsert resGE a l).filter (fun x => decide (x.score = c))
        = if a.score = c then a :: l.filter (fun x => decide (x.score = c))
          else l.filter (fun x => decide (x.score = c)) := by
  intro l
  induction l with
  | nil =>
    by_cases ha : a.score = c
    · rw [if_pos ha]
      simp [List.orderedInsert, ha]
    · rw [if_neg ha]
      simp [List.orderedInsert, ha]
  | cons b bs ih =>
    simp only [List.orderedInsert]
    by_cases hr : resGE a b
    · rw [if_pos hr]
      by_cases ha : a.score = c
      · rw [if_pos ha]
        simp [List.filter_cons, ha]
      · rw [if_neg ha]
        simp [List.filter_cons, ha]
    · rw [if_neg hr]
      have hab : a.score < b.score := lt_of_not_le hr
      by_cases ha : a.score = c
      · have hbc : ¬ b.score = c := by
          intro hcontra
          rw [hcontra, ← ha] at hab
          exact lt_irrefl _ hab
        rw [if_pos ha, List.filter_cons, List.filter_cons, ih, if_pos ha]
        simp [hbc]
      · rw [if_neg ha, List.filter_cons, List.filter_cons, ih, if_neg ha]

theorem insertionSort_filter_score (c : ℚ) :
    ∀ l : List SearchResult,
      (List.insertionSort resGE l).filter (fun x => decide (x.score = c))
        = l.filter (fun x => decide (x.score = c)) := by
  intro l
  induction l with
  | nil => rfl
  | cons x xs ih =>
    simp only [List.insertionSort]
    rw [orderedInsert_filter_score x c (List.insertionSort resGE xs)]
    by_cases hx : x.score = c
    · rw [if_pos hx, ih, List.filter_cons]
      simp [hx]
    · rw [if_neg hx, ih, List.filter_cons]
      simp [hx]

/-- C5: a search response has at most `limit` entries, adjacent scores are
non-increasing (`score[i] ≥ score[i+1]`), and within every score class the
response is an initial segment of the deduplicated matches in encounter
order — the stable sort breaks ties by encounter order. -/
theorem C5_search_order_limit (ms : List ScoredPoint) (limit : Nat) (hl : 0 < limit) :
    (search_similar ms limit).length ≤ limit ∧
    (search_similar ms limit).Pairwise (fun a b => b.score ≤ a.score) ∧
    (∀ c : ℚ, ∃ t, (search_similar ms limit).filter (fun x => decide (x.score = c)) ++ t
      = (dedupResults ms).filter (fun x => decide (x.score = c))) := by
  refine ⟨List.length_take_le _ _, ?_, ?_⟩
  · have hs : (List.insertionSort resGE (dedupResults ms)).Pairwise resGE :=
      List.sorted_insertionSort resGE (dedupResults ms)
    exact hs.sublist (List.take_sublist _ _)
  · intro c
    refine ⟨((List.insertionSort resGE (dedupResults ms)).drop limit).filter
      (fun x => decide (x.score = c)), ?_⟩
    show ((List.insertionSort resGE (dedupResults ms)).take limit).filter _ ++ _ = _
    rw [← List.filter_append, List.take_append_drop]
    exact insertionSort_filter_score c (dedupResults ms)

/-- C5 witness: with limit 1 a search over three matches returns one result. -/
theorem C5_witness :
    (search_similar
      [{ id := 0, score := 3,
         payload := { questionText := JVal.str "qa", visual_context := none,
                      metadata := [("_id", JVal.str "a")], index := 0,
                      embedding_type := "question_text_only" } },
       { id := 1, score := 5,
         payload := { questionText := JVal.str "qa", visual_context := none,
                      metadata := [("_id", JVal.str "a")], index := 0,
                      embedding_type := "question_text_with_visual_context" } },
       { id := 2, score := 4,
         payload := { questionText := JVal.str "qb", visual_context := none,
                      metadata := [("_id", JVal.str "b")], index := 1,
                      embedding_type := "question_text_only" } }] 1).length ≤ 1 :=
  (C5_search_order_limit
    [{ id := 0, score := 3,
       payload := { questionText := JVal.str "qa", visual_context := none,
                    metadata := [("_id", JVal.str "a")], index := 0,
                    embedding_type := "question_text_only" } },
     { id := 1, score := 5,
       payload := { questionText := JVal.str "qa", visual_context := none,
                    metadata := [("_id", JVal.str "a")], index := 0,
                    embedding_type := "question_text_with_visual_context" } },
     { id := 2, score := 4,
       payload := { questionText := JVal.str "qb", visual_context := none,
                    metadata := [("_id", JVal.str "b")], index := 1,
                    embedding_type := "question_text_only" } }] 1 (by decide)).1
